import Mathlib

/-!
# Verification of the gitfetch trusted-acquisition pipeline

A shallow embedding of the core of the `gitfetch` tool:

* `src/checksum.rs` — the integrity-fingerprint engine
  (`calculate_repo_checksums`, `verify_repo_checksums`);
* `src/security.rs` — the sandboxed git runner and the heuristic scanner
  (`run_sandboxed_git`, `scan_for_suspicious_patterns`);
* `src/config.rs` — the persisted configuration (`GitFetchConfig`);
* `src/commands/clone.rs` — the acquisition pipeline (`clone_repo`).

External effects (SHA-256, the filesystem, subprocesses, stdin prompts) are
made explicit: the cryptographic digest is an arbitrary function parameter
`hash`, a directory tree is an inductive value, and the pipeline is a pure
function from an environment of externally determined outcomes to the trace
of observable events it performs.
-/

namespace Gitfetch

/-! ## String primitives

Lean's built-in `String.startsWith`, `String.le`, `String.toLower`, … are
compiled by well-founded recursion over byte positions and do not reduce in
the kernel, so we re-implement the handful of primitives the source uses
directly over the underlying character lists.  For valid UTF-8, Rust's
byte-wise string order and substring containment coincide with the
character-wise versions used here (UTF-8 is order-preserving and
self-synchronizing). -/

/-- Character-list lexicographic comparison; models Rust's `str` ordering. -/
def charListLe : List Char → List Char → Bool
  | [], _ => true
  | _ :: _, [] => false
  | a :: as, b :: bs => if a < b then true else if b < a then false else charListLe as bs

/-- `a ≤ b` on strings, byte-wise/lexicographic; models Rust `String: Ord`. -/
def strLe (a b : String) : Bool :=
  charListLe a.data b.data

/-- Models Rust `str::starts_with`. -/
def strStartsWith (s pre : String) : Bool :=
  pre.data.isPrefixOf s.data

/-- Substring containment on character lists; models Rust `str::contains`. -/
def listContainsSub : List Char → List Char → Bool
  | [], needle => needle.isEmpty
  | c :: rest, needle => needle.isPrefixOf (c :: rest) || listContainsSub rest needle

/-- Models Rust `str::contains` for a string pattern. -/
def strContainsSub (hay needle : String) : Bool :=
  listContainsSub hay.data needle.data

/-- Models Rust `str::to_lowercase` (the patterns involved are ASCII). -/
def strToLower (s : String) : String :=
  String.mk (s.data.map Char.toLower)

theorem charListLe_cons {a b : Char} {as bs : List Char} :
    charListLe (a :: as) (b :: bs) = true ↔ a < b ∨ (a = b ∧ charListLe as bs = true) := by
  simp only [charListLe]
  rcases lt_trichotomy a b with h | h | h
  · simp [h]
  · subst h; simp [lt_irrefl]
  · have h1 : ¬ a < b := not_lt_of_gt h
    have h2 : a ≠ b := ne_of_gt h
    simp [h1, h, h2]

theorem charListLe_total : ∀ a b, charListLe a b = true ∨ charListLe b a = true := by
  intro a
  induction a with
  | nil => intro b; left; rfl
  | cons x xs ih =>
    intro b
    cases b with
    | nil => right; rfl
    | cons y ys =>
      rcases lt_trichotomy x y with h | h | h
      · left; rw [charListLe_cons]; exact Or.inl h
      · subst h
        rcases ih ys with h2 | h2
        · left; rw [charListLe_cons]; exact Or.inr ⟨rfl, h2⟩
        · right; rw [charListLe_cons]; exact Or.inr ⟨rfl, h2⟩
      · right; rw [charListLe_cons]; exact Or.inl h

theorem charListLe_trans :
    ∀ a b c, charListLe a b = true → charListLe b c = true → charListLe a c = true := by
  intro a
  induction a with
  | nil => intro b c _ _; rfl
  | cons x xs ih =>
    intro b c hab hbc
    cases b with
    | nil => simp [charListLe] at hab
    | cons y ys =>
      cases c with
      | nil => simp [charListLe] at hbc
      | cons z zs =>
        rw [charListLe_cons] at hab hbc ⊢
        rcases hab with hxy | ⟨hxy, hrec1⟩
        · rcases hbc with hyz | ⟨hyz, _⟩
          · exact Or.inl (lt_trans hxy hyz)
          · subst hyz; exact Or.inl hxy
        · subst hxy
          rcases hbc with hyz | ⟨hyz, hrec2⟩
          · exact Or.inl hyz
          · subst hyz; exact Or.inr ⟨rfl, ih _ _ hrec1 hrec2⟩

theorem charListLe_antisymm :
    ∀ a b, charListLe a b = true → charListLe b a = true → a = b := by
  intro a
  induction a with
  | nil =>
    intro b _ hba
    cases b with
    | nil => rfl
    | cons y ys => simp [charListLe] at hba
  | cons x xs ih =>
    intro b hab hba
    cases b with
    | nil => simp [charListLe] at hab
    | cons y ys =>
      rw [charListLe_cons] at hab hba
      rcases hab with hxy | ⟨hxy, hrec1⟩
      · rcases hba with hyx | ⟨hyx, _⟩
        · exact absurd hyx (not_lt_of_gt hxy)
        · exact absurd hyx.symm (ne_of_lt hxy)
      · subst hxy
        rcases hba with hyx | ⟨_, hrec2⟩
        · exact absurd hyx (lt_irrefl x)
        · rw [ih ys hrec1 hrec2]

theorem strLe_total (a b : String) : strLe a b = true ∨ strLe b a = true :=
  charListLe_total a.data b.data

theorem strLe_trans {a b c : String} :
    strLe a b = true → strLe b c = true → strLe a c = true :=
  charListLe_trans a.data b.data c.data

theorem strLe_antisymm {a b : String} :
    strLe a b = true → strLe b a = true → a = b := by
  intro hab hba
  cases a with
  | mk da =>
    cases b with
    | mk db => rw [charListLe_antisymm da db hab hba]

/-! ## Data model (`src/types.rs`)

`RepoChecksum` is the integrity fingerprint.  The Rust field
`file_checksums : HashMap<String, String>` is modelled as an association
list; the walk below inserts with replace-on-duplicate semantics exactly as
`HashMap::insert` does, so the list it builds is duplicate-key-free. -/

/-- Fingerprint of one acquired repository (`types.rs`, `RepoChecksum`). -/
structure RepoChecksum where
  repo_url : String
  commit_hash : String
  file_checksums : List (String × String)
  total_hash : String
  verified_at : String
deriving DecidableEq

/-- One acquired-repository record (`types.rs`, `InstalledRepo`). -/
structure InstalledRepo where
  name : String
  url : String
  path : String
  commit_hash : Option String
  verified : Bool
  workspace_path : Option String
deriving DecidableEq

/-- `HashMap::get`: the value bound to `k`, if any. -/
def lookupA {α : Type} (m : List (String × α)) (k : String) : Option α :=
  (m.find? (fun p => p.1 == k)).map (fun p => p.2)

/-- `HashMap::contains_key`. -/
def containsKeyA {α : Type} (m : List (String × α)) (k : String) : Bool :=
  (lookupA m k).isSome

/-- `HashMap::insert`: replaces the binding when the key is present. -/
def insertA {α : Type} (m : List (String × α)) (k : String) (v : α) : List (String × α) :=
  if m.any (fun p => p.1 == k) then
    m.map (fun p => if p.1 == k then (k, v) else p)
  else m ++ [(k, v)]

/-! ## The checksum engine (`src/checksum.rs`)

A directory tree is a nested inductive: a file carries `some content`
(a byte list) when readable and `none` when reading it fails — per-file read
errors are swallowed in `walk_and_checksum` (`if let Ok(checksum) = ...`).
The cryptographic digest is an arbitrary parameter `hash : List Nat → String`
(SHA-256 in the source); every property proved below holds for all `hash`,
which is exactly what the source's determinism claims rely on. -/

/-- A directory tree.  Directory entries are listed in the order the
filesystem enumerates them (`fs::read_dir` order, which is unspecified). -/
inductive FSTree where
  | file (content : Option (List Nat)) : FSTree
  | dir (entries : List (String × FSTree)) : FSTree

/-- The skip rule of `walk_and_checksum` (checksum.rs lines 76-81): hidden
names and the two denylisted directories. -/
def skipName (name : String) : Bool :=
  strStartsWith name "." || name == "node_modules" || name == "target"

/-- Joining a relative-path prefix with an entry name; the relative path the
source derives via `strip_prefix`. -/
def joinPath (pre name : String) : String :=
  if pre = "" then name else pre ++ "/" ++ name

mutual

/-- Processing of a single directory entry by `walk_and_checksum`
(checksum.rs lines 71-95): skip rule first, then hash files and recurse into
directories, threading the checksum map through. -/
def walkTreeAcc (hash : List Nat → String) (name : String) (t : FSTree) (pre : String)
    (acc : List (String × String)) : List (String × String) :=
  if skipName name then acc
  else
    match t with
    | .file none => acc
    | .file (some content) => insertA acc (joinPath pre name) (hash content)
    | .dir entries => walkAcc hash entries (joinPath pre name) acc

/-- `walk_and_checksum` over the entries of one directory. -/
def walkAcc (hash : List Nat → String) (l : List (String × FSTree)) (pre : String)
    (acc : List (String × String)) : List (String × String) :=
  match l with
  | [] => acc
  | (name, t) :: rest => walkAcc hash rest pre (walkTreeAcc hash name t pre acc)

end

/-- UTF-8 bytes of a string, as fed to the aggregate hasher
(`file_path.as_bytes()`). -/
def strBytes (s : String) : List Nat :=
  s.toUTF8.toList.map (fun b => b.toNat)

/-- `sorted_files.sort_by_key(|(path, _)| *path)` (checksum.rs line 38):
a stable sort of the map entries by path, byte-wise. -/
def sortByKey (m : List (String × String)) : List (String × String) :=
  m.mergeSort (fun a b => strLe a.1 b.1)

/-- The byte stream fed to the aggregate hasher: for every sorted entry,
`path_bytes || digest_bytes` (checksum.rs lines 40-44). -/
def totalFeed (l : List (String × String)) : List Nat :=
  l.foldr (fun p acc => strBytes p.1 ++ strBytes p.2 ++ acc) []

/-- `calculate_repo_checksums` (checksum.rs lines 27-59).  The git
subprocess results (`get_commit_hash`, `get_remote_url`) and the timestamp
are external inputs passed as parameters. -/
def calculate_repo_checksums (hash : List Nat → String) (commit remote : Option String)
    (now : String) (root : List (String × FSTree)) : RepoChecksum :=
  let m := walkAcc hash root "" []
  { repo_url := remote.getD "unknown"
    commit_hash := commit.getD "unknown"
    file_checksums := m
    total_hash := hash (totalFeed (sortByKey m))
    verified_at := now }

/-- What `verify_repo_checksums` observably reports: whether the
commit-mismatch warning was printed, the `verified` and `issues` counters it
prints, and the boolean it returns. -/
structure VerifyReport where
  commitWarning : Bool
  verified : Nat
  issues : Nat
  allMatch : Bool
deriving DecidableEq

/-- The first loop of `verify_repo_checksums` (checksum.rs lines 120-132):
for each expected entry, a matching current digest bumps `verified`, a
differing or absent one bumps `issues` and clears `all_match`. -/
def checkExpected (current : List (String × String)) :
    List (String × String) → Nat × Nat × Bool → Nat × Nat × Bool
  | [], st => st
  | (k, v) :: rest, (ver, iss, am) =>
    match lookupA current k with
    | some c =>
        if c = v then checkExpected current rest (ver + 1, iss, am)
        else checkExpected current rest (ver, iss + 1, false)
    | none => checkExpected current rest (ver, iss + 1, false)

/-- The second loop of `verify_repo_checksums` (checksum.rs lines 134-140):
every current file absent from the expected map bumps `issues` and clears
`all_match`. -/
def checkUnexpected (expected : List (String × String)) :
    List String → Nat × Bool → Nat × Bool
  | [], st => st
  | k :: rest, (iss, am) =>
    if containsKeyA expected k then checkUnexpected expected rest (iss, am)
    else checkUnexpected expected rest (iss + 1, false)

/-- `verify_repo_checksums` (checksum.rs lines 101-151).  `currentCommit` is
the external `git::get_commit_hash` result; the walk itself cannot fail in
the model (read-dir errors are outside the tree datatype), so the `Err`
branch of the source is not represented. -/
def verify_repo_checksums (hash : List Nat → String) (currentCommit : Option String)
    (root : List (String × FSTree)) (expected : RepoChecksum) : VerifyReport :=
  let commitWarning :=
    match currentCommit with
    | some c => c != expected.commit_hash
    | none => false
  let current := walkAcc hash root "" []
  let st1 := checkExpected current expected.file_checksums (0, 0, true)
  let st2 := checkUnexpected expected.file_checksums (current.map (fun p => p.1))
    (st1.2.1, st1.2.2)
  { commitWarning := commitWarning
    verified := st1.1
    issues := st2.1
    allMatch := st2.2 }

/-! Spec-side per-axis counts.  The specification describes the diff "along
three axes — present-but-changed, expected-but-missing,
present-but-unexpected".  These definitions follow the spec's words; they are
*not* returned by the source function, which only aggregates them into
`issues`.  They are used to settle the refinement claim C8. -/

/-- Spec axis 1: expected entries whose current digest differs. -/
def specChangedCount (current expected : List (String × String)) : Nat :=
  expected.countP (fun p =>
    match lookupA current p.1 with
    | some c => c ≠ p.2
    | none => false)

/-- Spec axis 2: expected entries with no current counterpart. -/
def specMissingCount (current expected : List (String × String)) : Nat :=
  expected.countP (fun p => (lookupA current p.1).isNone)

/-- Spec axis 3: current files absent from the expected map. -/
def specUnexpectedCount (current expected : List (String × String)) : Nat :=
  (current.map (fun p => p.1)).countP (fun k => !(containsKeyA expected k))

/-! ## The walk as a flat file sequence

`collectFiles` lists the `(relative_path, content)` pairs of the readable,
non-skipped files in depth-first walk order.  It is the "identical
(relative path, file content) pairs" view that claim C1 quantifies over;
`walkAcc_eq_foldl` proves the walk is the fold of map-inserts over it. -/

mutual

/-- The `(relative_path, content)` pairs contributed by one entry. -/
def collectTree (name : String) (t : FSTree) (pre : String) : List (String × List Nat) :=
  if skipName name then []
  else
    match t with
    | .file none => []
    | .file (some content) => [(joinPath pre name, content)]
    | .dir entries => collectFiles entries (joinPath pre name)

/-- The `(relative_path, content)` pairs of a directory, in walk order. -/
def collectFiles (l : List (String × FSTree)) (pre : String) : List (String × List Nat) :=
  match l with
  | [] => []
  | (name, t) :: rest => collectTree name t pre ++ collectFiles rest pre

end

mutual

theorem walkTreeAcc_eq_foldl (hash : List Nat → String) (name : String) (t : FSTree)
    (pre : String) (acc : List (String × String)) :
    walkTreeAcc hash name t pre acc =
      (collectTree name t pre).foldl (fun m p => insertA m p.1 (hash p.2)) acc := by
  cases t with
  | file c =>
    cases c with
    | none => by_cases h : skipName name <;> simp [walkTreeAcc, collectTree, h]
    | some content => by_cases h : skipName name <;> simp [walkTreeAcc, collectTree, h]
  | dir entries =>
    by_cases h : skipName name <;>
      simp [walkTreeAcc, collectTree, h,
        walkAcc_eq_foldl hash entries (joinPath pre name) acc]

theorem walkAcc_eq_foldl (hash : List Nat → String) (l : List (String × FSTree))
    (pre : String) (acc : List (String × String)) :
    walkAcc hash l pre acc =
      (collectFiles l pre).foldl (fun m p => insertA m p.1 (hash p.2)) acc := by
  cases l with
  | nil => simp [walkAcc, collectFiles]
  | cons head rest =>
    obtain ⟨name, t⟩ := head
    rw [walkAcc, walkAcc_eq_foldl hash rest pre (walkTreeAcc hash name t pre acc),
      walkTreeAcc_eq_foldl hash name t pre acc, collectFiles, List.foldl_append]

end

/-! ## Association-list lemmas -/

theorem anyKey_iff {α : Type} (m : List (String × α)) (k : String) :
    m.any (fun p => p.1 == k) = true ↔ k ∈ m.map (fun p => p.1) := by
  simp [List.any_eq_true, List.mem_map]

theorem insertA_of_fresh {α : Type} {m : List (String × α)} {k : String} (v : α)
    (h : k ∉ m.map (fun p => p.1)) : insertA m k v = m ++ [(k, v)] := by
  have : m.any (fun p => p.1 == k) = false := by
    rw [← Bool.not_eq_true, anyKey_iff]; exact h
  simp [insertA, this]

theorem keys_insertA_of_mem {α : Type} {m : List (String × α)} {k : String} (v : α)
    (h : k ∈ m.map (fun p => p.1)) :
    (insertA m k v).map (fun p => p.1) = m.map (fun p => p.1) := by
  have hany : m.any (fun p => p.1 == k) = true := (anyKey_iff m k).mpr h
  simp only [insertA, hany, if_true, List.map_map]
  apply List.map_congr_left
  intro p _
  by_cases hk : p.1 = k
  · simp [hk]
  · simp [hk]

theorem nodupKeys_insertA {α : Type} {m : List (String × α)} (k : String) (v : α)
    (h : (m.map (fun p => p.1)).Nodup) : ((insertA m k v).map (fun p => p.1)).Nodup := by
  by_cases hk : k ∈ m.map (fun p => p.1)
  · rw [keys_insertA_of_mem v hk]; exact h
  · rw [insertA_of_fresh v hk]
    simp only [List.map_append, List.map_cons, List.map_nil]
    rw [List.nodup_append]
    refine ⟨h, List.nodup_singleton k, ?_⟩
    intro a ha hb
    have hak : a = k := by simpa using hb
    exact hk (hak ▸ ha)

theorem nodupKeys_foldl_insertA {α β : Type} (g : String × β → α) :
    ∀ (l : List (String × β)) (acc : List (String × α)),
    (acc.map (fun p => p.1)).Nodup →
    ((l.foldl (fun m p => insertA m p.1 (g p)) acc).map (fun p => p.1)).Nodup := by
  intro l
  induction l with
  | nil => intro acc h; simpa using h
  | cons p rest ih =>
    intro acc h
    simpa using ih (insertA acc p.1 (g p)) (nodupKeys_insertA p.1 (g p) h)

theorem foldl_insertA_eq_append {α β : Type} (g : String × β → α) :
    ∀ (l : List (String × β)) (acc : List (String × α)),
    (acc.map (fun p => p.1) ++ l.map (fun p => p.1)).Nodup →
    l.foldl (fun m p => insertA m p.1 (g p)) acc = acc ++ l.map (fun p => (p.1, g p)) := by
  intro l
  induction l with
  | nil => intro acc _; simp
  | cons p rest ih =>
    intro acc h
    have hfresh : p.1 ∉ acc.map (fun q => q.1) := by
      intro hmem
      rw [List.nodup_append] at h
      exact h.2.2 hmem (by simp)
    have hstep : insertA acc p.1 (g p) = acc ++ [(p.1, g p)] := insertA_of_fresh (g p) hfresh
    have hrest : ((acc ++ [(p.1, g p)]).map (fun q => q.1) ++
        rest.map (fun q => q.1)).Nodup := by
      simpa [List.append_assoc] using h
    calc (p :: rest).foldl (fun m q => insertA m q.1 (g q)) acc
        = rest.foldl (fun m q => insertA m q.1 (g q)) (acc ++ [(p.1, g p)]) := by
          simp [hstep]
      _ = (acc ++ [(p.1, g p)]) ++ rest.map (fun q => (q.1, g q)) := ih _ hrest
      _ = acc ++ (p :: rest).map (fun q => (q.1, g q)) := by simp

theorem nodupKeys_walkAcc (hash : List Nat → String) (l : List (String × FSTree))
    (pre : String) :
    ((walkAcc hash l pre []).map (fun p => p.1)).Nodup := by
  rw [walkAcc_eq_foldl]
  exact nodupKeys_foldl_insertA (fun p => hash p.2) (collectFiles l pre) [] (by simp)

theorem walkAcc_eq_map (hash : List Nat → String) (l : List (String × FSTree)) (pre : String)
    (h : ((collectFiles l pre).map (fun p => p.1)).Nodup) :
    walkAcc hash l pre [] = (collectFiles l pre).map (fun p => (p.1, hash p.2)) := by
  rw [walkAcc_eq_foldl]
  simpa using foldl_insertA_eq_append (fun p => hash p.2) (collectFiles l pre) [] (by simpa using h)

theorem lookupA_eq_some_of_mem {α : Type} :
    ∀ {m : List (String × α)} {k : String} {v : α},
    (m.map (fun p => p.1)).Nodup → (k, v) ∈ m → lookupA m k = some v := by
  intro m
  induction m with
  | nil => intro k v _ hmem; simp at hmem
  | cons q rest ih =>
    intro k v hnd hmem
    have hnd2 : q.1 ∉ rest.map (fun p => p.1) ∧ (rest.map (fun p => p.1)).Nodup := by
      rw [List.map_cons, List.nodup_cons] at hnd
      exact hnd
    rcases List.mem_cons.mp hmem with heq | htail
    · subst heq; simp [lookupA, List.find?_cons]
    · by_cases hk : q.1 = k
      · exfalso
        have hkeys : k ∈ rest.map (fun p => p.1) :=
          List.mem_map.mpr ⟨(k, v), htail, rfl⟩
        exact hnd2.1 (hk ▸ hkeys)
      · have hstep : lookupA (q :: rest) k = lookupA rest k := by
          simp [lookupA, List.find?_cons, hk]
        rw [hstep]
        exact ih hnd2.2 htail

theorem lookupA_isSome_iff {α : Type} (m : List (String × α)) (k : String) :
    (lookupA m k).isSome = true ↔ k ∈ m.map (fun p => p.1) := by
  induction m with
  | nil => simp [lookupA]
  | cons q rest ih =>
    by_cases hk : q.1 = k
    · simp [lookupA, List.find?_cons, hk]
    · have hstep : lookupA (q :: rest) k = lookupA rest k := by
        simp [lookupA, List.find?_cons, hk]
      rw [hstep, ih]
      simp only [List.map_cons, List.mem_cons]
      constructor
      · intro h; exact Or.inr h
      · intro h
        rcases h with h | h
        · exact absurd h.symm hk
        · exact h

theorem lookupA_append_left {α : Type} {m : List (String × α)} {k : String}
    (rest : List (String × α)) (h : (lookupA m k).isSome = true) :
    lookupA (m ++ rest) k = lookupA m k := by
  induction m with
  | nil => simp [lookupA] at h
  | cons q tail ih =>
    by_cases hk : q.1 = k
    · simp [lookupA, List.find?_cons, hk]
    · have h2 : (lookupA tail k).isSome = true := by
        simpa [lookupA, List.find?_cons, hk] using h
      have := ih h2
      simpa [lookupA, List.find?_cons, hk] using this

/-! ## Sorting lemmas

`sort_by_key` is a stable sort by path.  Because a walk of a directory tree
produces duplicate-free relative paths, any two permutations of the same
entry set sort to the same list — the heart of claim C1. -/

theorem sortByKey_perm (m : List (String × String)) : (sortByKey m).Perm m :=
  List.mergeSort_perm m _

theorem sortByKey_sorted (m : List (String × String)) :
    (sortByKey m).Pairwise (fun a b => strLe a.1 b.1 = true) := by
  exact @List.sorted_mergeSort (String × String) (fun a b => strLe a.1 b.1)
    (fun a b c hab hbc => strLe_trans hab hbc)
    (fun a b => by
      rcases strLe_total a.1 b.1 with h | h
      · simp [h]
      · simp [h])
    m

theorem sorted_perm_eq_of_nodupKeys :
    ∀ (l1 l2 : List (String × String)), l1.Perm l2 →
    l1.Pairwise (fun a b => strLe a.1 b.1 = true) →
    l2.Pairwise (fun a b => strLe a.1 b.1 = true) →
    (l1.map (fun p => p.1)).Nodup → l1 = l2 := by
  intro l1
  induction l1 with
  | nil => intro l2 hp _ _ _; exact hp.nil_eq
  | cons a t1 ih =>
    intro l2 hp hs1 hs2 hnd
    cases l2 with
    | nil => exact absurd hp.symm.nil_eq (by simp)
    | cons b t2 =>
      have hnd2 : a.1 ∉ t1.map (fun p => p.1) ∧ (t1.map (fun p => p.1)).Nodup := by
        rw [List.map_cons, List.nodup_cons] at hnd
        exact hnd
      have hab : a = b := by
        by_contra hne
        have ha2 : a ∈ b :: t2 := hp.subset (by simp)
        have hb1 : b ∈ a :: t1 := hp.symm.subset (by simp)
        have hat2 : a ∈ t2 := by
          rcases List.mem_cons.mp ha2 with h | h
          · exact absurd h hne
          · exact h
        have hbt1 : b ∈ t1 := by
          rcases List.mem_cons.mp hb1 with h | h
          · exact absurd h (fun hh => hne hh.symm)
          · exact h
        have hRab : strLe a.1 b.1 = true := (List.pairwise_cons.mp hs1).1 b hbt1
        have hRba : strLe b.1 a.1 = true := (List.pairwise_cons.mp hs2).1 a hat2
        have hkey : a.1 = b.1 := strLe_antisymm hRab hRba
        exact hnd2.1 (List.mem_map.mpr ⟨b, hbt1, hkey.symm⟩)
      subst hab
      have hpt : t1.Perm t2 := hp.cons_inv
      rw [ih t2 hpt (List.pairwise_cons.mp hs1).2 (List.pairwise_cons.mp hs2).2 hnd2.2]

/-! ## Characterizing the verification loops -/

/-- Expected entries whose current digest agrees (the `verified` counter). -/
def matchedCount (current expected : List (String × String)) : Nat :=
  expected.countP (fun p => lookupA current p.1 == some p.2)

theorem checkExpected_verified (cur : List (String × String)) :
    ∀ (exp : List (String × String)) (v i : Nat) (a : Bool),
    (checkExpected cur exp (v, i, a)).1 = v + matchedCount cur exp := by
  intro exp
  induction exp with
  | nil => intro v i a; simp [checkExpected, matchedCount]
  | cons p rest ih =>
    intro v i a
    obtain ⟨k, w⟩ := p
    rcases hc : lookupA cur k with _ | c
    · simp only [checkExpected, hc]
      rw [ih]
      simp [matchedCount, List.countP_cons, hc]
    · by_cases hw : c = w
      · subst hw
        simp only [checkExpected, hc]
        rw [if_pos trivial, ih]
        simp [matchedCount, List.countP_cons, hc]
        omega
      · simp only [checkExpected, hc]
        rw [if_neg hw, ih]
        simp [matchedCount, List.countP_cons, hc, hw]

theorem checkExpected_issues (cur : List (String × String)) :
    ∀ (exp : List (String × String)) (v i : Nat) (a : Bool),
    (checkExpected cur exp (v, i, a)).2.1 =
      i + specChangedCount cur exp + specMissingCount cur exp := by
  intro exp
  induction exp with
  | nil => intro v i a; simp [checkExpected, specChangedCount, specMissingCount]
  | cons p rest ih =>
    intro v i a
    obtain ⟨k, w⟩ := p
    rcases hc : lookupA cur k with _ | c
    · simp only [checkExpected, hc]
      rw [ih]
      simp [specChangedCount, specMissingCount, List.countP_cons, hc]
      omega
    · by_cases hw : c = w
      · subst hw
        simp only [checkExpected, hc]
        rw [if_pos trivial, ih]
        simp [specChangedCount, specMissingCount, List.countP_cons, hc]
      · simp only [checkExpected, hc]
        rw [if_neg hw, ih]
        simp [specChangedCount, specMissingCount, List.countP_cons, hc, hw]
        omega

theorem checkExpected_allMatch (cur : List (String × String)) :
    ∀ (exp : List (String × String)) (v i : Nat) (a : Bool),
    (checkExpected cur exp (v, i, a)).2.2 =
      (a && decide (specChangedCount cur exp + specMissingCount cur exp = 0)) := by
  intro exp
  induction exp with
  | nil => intro v i a; simp [checkExpected, specChangedCount, specMissingCount]
  | cons p rest ih =>
    intro v i a
    obtain ⟨k, w⟩ := p
    rcases hc : lookupA cur k with _ | c
    · simp only [checkExpected, hc]
      rw [ih]
      have hne : specChangedCount cur ((k, w) :: rest) +
          specMissingCount cur ((k, w) :: rest) ≠ 0 := by
        simp [specChangedCount, specMissingCount, List.countP_cons, hc]
      rw [decide_eq_false hne]
      simp
    · by_cases hw : c = w
      · subst hw
        simp only [checkExpected, hc]
        rw [if_pos trivial, ih]
        have heq : specChangedCount cur ((k, c) :: rest) +
            specMissingCount cur ((k, c) :: rest) =
            specChangedCount cur rest + specMissingCount cur rest := by
          simp [specChangedCount, specMissingCount, List.countP_cons, hc]
        rw [heq]
      · simp only [checkExpected, hc]
        rw [if_neg hw, ih]
        have hne : specChangedCount cur ((k, w) :: rest) +
            specMissingCount cur ((k, w) :: rest) ≠ 0 := by
          simp [specChangedCount, specMissingCount, List.countP_cons, hc, hw]
        rw [decide_eq_false hne]
        simp

theorem checkUnexpected_issues (exp : List (String × String)) :
    ∀ (ks : List String) (i : Nat) (a : Bool),
    (checkUnexpected exp ks (i, a)).1 =
      i + ks.countP (fun k => !(containsKeyA exp k)) := by
  intro ks
  induction ks with
  | nil => intro i a; simp [checkUnexpected]
  | cons k rest ih =>
    intro i a
    by_cases hk : containsKeyA exp k = true
    · simp only [checkUnexpected, hk, if_true]
      rw [ih]
      simp [List.countP_cons, hk]
    · rw [Bool.not_eq_true] at hk
      simp only [checkUnexpected, hk, Bool.false_eq_true, if_false]
      rw [ih]
      simp [List.countP_cons, hk]
      omega

theorem checkUnexpected_allMatch (exp : List (String × String)) :
    ∀ (ks : List String) (i : Nat) (a : Bool),
    (checkUnexpected exp ks (i, a)).2 =
      (a && decide (ks.countP (fun k => !(containsKeyA exp k)) = 0)) := by
  intro ks
  induction ks with
  | nil => intro i a; simp [checkUnexpected]
  | cons k rest ih =>
    intro i a
    by_cases hk : containsKeyA exp k = true
    · simp only [checkUnexpected, hk, if_true]
      rw [ih]
      simp [List.countP_cons, hk]
    · rw [Bool.not_eq_true] at hk
      simp only [checkUnexpected, hk, Bool.false_eq_true, if_false]
      rw [ih]
      have hne : (rest.countP (fun k => !(containsKeyA exp k)) +
          if (!(containsKeyA exp k)) = true then 1 else 0) ≠ 0 := by
        simp [hk]
      simp only [List.countP_cons]
      rw [decide_eq_false hne]
      simp

/-- `verify_repo_checksums`, re-expressed through the spec's three diff
axes: `verified` counts the matches, `issues` aggregates the three axis
counts into one number, and the returned boolean is "no issue on any
axis". -/
theorem verify_characterization (hash : List Nat → String) (c : Option String)
    (root : List (String × FSTree)) (e : RepoChecksum) :
    verify_repo_checksums hash c root e =
      { commitWarning := match c with | some cc => cc != e.commit_hash | none => false
        verified := matchedCount (walkAcc hash root "" []) e.file_checksums
        issues := specChangedCount (walkAcc hash root "" []) e.file_checksums +
                  specMissingCount (walkAcc hash root "" []) e.file_checksums +
                  specUnexpectedCount (walkAcc hash root "" []) e.file_checksums
        allMatch := decide (specChangedCount (walkAcc hash root "" []) e.file_checksums +
                      specMissingCount (walkAcc hash root "" []) e.file_checksums = 0) &&
                    decide (specUnexpectedCount (walkAcc hash root "" []) e.file_checksums
                      = 0) } := by
  simp only [verify_repo_checksums, VerifyReport.mk.injEq]
  refine ⟨trivial, ?_, ?_, ?_⟩
  · rw [checkExpected_verified]
    omega
  · rw [checkUnexpected_issues, checkExpected_issues, specUnexpectedCount]
    omega
  · rw [checkUnexpected_allMatch, checkExpected_allMatch, specUnexpectedCount]
    simp

/-! ## Claims C1 and C2 -/

/-- C1: for every pair of directory trees holding identical
`(relative path, file content)` pairs (a permutation of one another — the
walk order differs, the path set being duplicate-free as on a real
filesystem), `calculate_repo_checksums` produces the same
`total_hash`: the aggregate digest is a function of the sorted
`(relative_path, digest)` pairs and is independent of walk order. -/
theorem c1_aggregate_independent_of_walk_order
    (hash : List Nat → String) (c1 c2 r1 r2 : Option String) (n1 n2 : String)
    (t1 t2 : List (String × FSTree))
    (hperm : (collectFiles t1 "").Perm (collectFiles t2 ""))
    (hnd : ((collectFiles t1 "").map (fun p => p.1)).Nodup) :
    (calculate_repo_checksums hash c1 r1 n1 t1).total_hash =
    (calculate_repo_checksums hash c2 r2 n2 t2).total_hash := by
  have hndK2 : ((collectFiles t2 "").map (fun p => p.1)).Nodup :=
    ((hperm.map (fun p => p.1)).nodup_iff).mp hnd
  have hm1 := walkAcc_eq_map hash t1 "" hnd
  have hm2 := walkAcc_eq_map hash t2 "" hndK2
  have hpm : (walkAcc hash t1 "" []).Perm (walkAcc hash t2 "" []) := by
    rw [hm1, hm2]
    exact hperm.map _
  have hndm : ((walkAcc hash t1 "" []).map (fun p => p.1)).Nodup := by
    rw [hm1]
    simpa [List.map_map, Function.comp] using hnd
  have hsorteq : sortByKey (walkAcc hash t1 "" []) = sortByKey (walkAcc hash t2 "" []) := by
    apply sorted_perm_eq_of_nodupKeys
    · exact (sortByKey_perm _).trans (hpm.trans (sortByKey_perm _).symm)
    · exact sortByKey_sorted _
    · exact sortByKey_sorted _
    · exact ((sortByKey_perm _).map (fun p => p.1)).nodup_iff.mpr hndm
  simp only [calculate_repo_checksums]
  rw [hsorteq]

/-- Witness for C1 at two concrete two-file trees enumerated in opposite
orders. -/
theorem c1_witness :
    ((collectFiles [("b", FSTree.file (some [2])), ("a", FSTree.file (some [1]))] "").Perm
      (collectFiles [("a", FSTree.file (some [1])), ("b", FSTree.file (some [2]))] "") ∧
     ((collectFiles [("b", FSTree.file (some [2])), ("a", FSTree.file (some [1]))] "").map
       (fun p => p.1)).Nodup) ∧
    (calculate_repo_checksums (fun b => String.mk (b.map (fun n => Char.ofNat (n + 48))))
        none none "t" [("b", FSTree.file (some [2])), ("a", FSTree.file (some [1]))]).total_hash =
    (calculate_repo_checksums (fun b => String.mk (b.map (fun n => Char.ofNat (n + 48))))
        none none "t" [("a", FSTree.file (some [1])), ("b", FSTree.file (some [2]))]).total_hash :=
  ⟨⟨by decide, by decide⟩,
    c1_aggregate_independent_of_walk_order _ none none none none "t" "t" _ _
      (by decide) (by decide)⟩

/-- C2: verifying a tree against the fingerprint just computed from it is a
full match with zero issues — the returned boolean is `true` and the
`issues` counter is `0` — for every tree, digest function, and git-state
inputs (round-trip identity). -/
theorem c2_verify_roundtrip (hash : List Nat → String) (c c2 r : Option String)
    (now : String) (root : List (String × FSTree)) :
    (verify_repo_checksums hash c root
      (calculate_repo_checksums hash c2 r now root)).allMatch = true ∧
    (verify_repo_checksums hash c root
      (calculate_repo_checksums hash c2 r now root)).issues = 0 := by
  have hnd := nodupKeys_walkAcc hash root ""
  have hlook : ∀ p ∈ walkAcc hash root "" [],
      lookupA (walkAcc hash root "" []) p.1 = some p.2 := by
    intro p hp
    obtain ⟨k, v⟩ := p
    exact lookupA_eq_some_of_mem hnd hp
  have hchanged : specChangedCount (walkAcc hash root "" []) (walkAcc hash root "" []) = 0 := by
    rw [specChangedCount, List.countP_eq_zero]
    intro p hp
    simp [hlook p hp]
  have hmissing : specMissingCount (walkAcc hash root "" []) (walkAcc hash root "" []) = 0 := by
    rw [specMissingCount, List.countP_eq_zero]
    intro p hp
    simp [hlook p hp]
  have hunexp : specUnexpectedCount (walkAcc hash root "" [])
      (walkAcc hash root "" []) = 0 := by
    rw [specUnexpectedCount, List.countP_eq_zero]
    intro k hk
    have : (lookupA (walkAcc hash root "" []) k).isSome = true :=
      (lookupA_isSome_iff _ k).mpr hk
    simp [containsKeyA, this]
  have hexp : (calculate_repo_checksums hash c2 r now root).file_checksums =
      walkAcc hash root "" [] := rfl
  rw [verify_characterization, hexp, hchanged, hmissing, hunexp]
  simp

/-! ## Claims C7 and C8 -/

/-- C7: the verification verdict depends only on the file-digest diff.  A
current-revision mismatch alone raises the (non-fatal) warning but leaves
the returned boolean and both counters untouched — the report fields other
than the warning are the same for every current commit — while any
file-content mismatch forces the returned boolean to `false`. -/
theorem c7_revision_drift_nonfatal (hash : List Nat → String)
    (root : List (String × FSTree)) (e : RepoChecksum) :
    (∀ c1 c2 : Option String,
       (verify_repo_checksums hash c1 root e).allMatch =
         (verify_repo_checksums hash c2 root e).allMatch ∧
       (verify_repo_checksums hash c1 root e).issues =
         (verify_repo_checksums hash c2 root e).issues ∧
       (verify_repo_checksums hash c1 root e).verified =
         (verify_repo_checksums hash c2 root e).verified) ∧
    (∀ cc : String, cc ≠ e.commit_hash →
       (verify_repo_checksums hash (some cc) root e).commitWarning = true) ∧
    (∀ c : Option String,
       (∃ p ∈ e.file_checksums, lookupA (walkAcc hash root "" []) p.1 ≠ some p.2) →
       (verify_repo_checksums hash c root e).allMatch = false) := by
  refine ⟨?_, ?_, ?_⟩
  · intro c1 c2
    rw [verify_characterization, verify_characterization]
    exact ⟨rfl, rfl, rfl⟩
  · intro cc hne
    simp only [verify_repo_checksums]
    simpa using hne
  · intro c hmis
    obtain ⟨p, hp, hne⟩ := hmis
    have hpos : specChangedCount (walkAcc hash root "" []) e.file_checksums +
        specMissingCount (walkAcc hash root "" []) e.file_checksums ≠ 0 := by
      rcases hc : lookupA (walkAcc hash root "" []) p.1 with _ | v
      · have : 0 < specMissingCount (walkAcc hash root "" []) e.file_checksums := by
          rw [specMissingCount, List.countP_pos_iff]
          exact ⟨p, hp, by simp [hc]⟩
        omega
      · have hvne : v ≠ p.2 := by
          intro hv
          exact hne (hv ▸ hc)
        have : 0 < specChangedCount (walkAcc hash root "" []) e.file_checksums := by
          rw [specChangedCount, List.countP_pos_iff]
          exact ⟨p, hp, by simp [hc, hvne]⟩
        omega
    have hall : (verify_repo_checksums hash c root e).allMatch =
        (decide (specChangedCount (walkAcc hash root "" []) e.file_checksums +
            specMissingCount (walkAcc hash root "" []) e.file_checksums = 0) &&
         decide (specUnexpectedCount (walkAcc hash root "" []) e.file_checksums = 0)) := by
      rw [verify_characterization]
    rw [hall, decide_eq_false hpos, Bool.false_and]

/-- Witness for C7 at a one-file tree whose stored digest disagrees: the
commit-drift warning fires and a content mismatch fails verification. -/
theorem c7_witness :
    ("x" ≠ "c" ∧
      (verify_repo_checksums (fun _ => "h") (some "x") [("a", FSTree.file (some [1]))]
        ⟨"u", "c", [("a", "w")], "t", "s"⟩).commitWarning = true) ∧
    ((("a", "w") ∈ [(("a" : String), ("w" : String))] ∧
        lookupA (walkAcc (fun _ => "h") [("a", FSTree.file (some [1]))] "" []) "a" ≠
          some "w") ∧
      (verify_repo_checksums (fun _ => "h") none [("a", FSTree.file (some [1]))]
        ⟨"u", "c", [("a", "w")], "t", "s"⟩).allMatch = false) :=
  ⟨⟨by decide,
    (c7_revision_drift_nonfatal (fun _ => "h") [("a", FSTree.file (some [1]))]
      ⟨"u", "c", [("a", "w")], "t", "s"⟩).2.1 "x" (by decide)⟩,
   ⟨⟨by decide, by decide⟩,
    (c7_revision_drift_nonfatal (fun _ => "h") [("a", FSTree.file (some [1]))]
      ⟨"u", "c", [("a", "w")], "t", "s"⟩).2.2 none
      ⟨("a", "w"), by decide, by decide⟩⟩⟩

theorem walkAcc_append (hash : List Nat → String) :
    ∀ (l1 l2 : List (String × FSTree)) (pre : String) (acc : List (String × String)),
    walkAcc hash (l1 ++ l2) pre acc = walkAcc hash l2 pre (walkAcc hash l1 pre acc) := by
  intro l1
  induction l1 with
  | nil => intro l2 pre acc; simp [walkAcc]
  | cons p rest ih =>
    intro l2 pre acc
    obtain ⟨name, t⟩ := p
    rw [List.cons_append, walkAcc, walkAcc, ih]

/-- C8 counterexample: `verify_repo_checksums` does not return counts per
axis.  A run with one changed file and a run with one missing file have
different per-axis profiles but produce identical reports, so the report
cannot carry the three per-axis counts the claim says it returns. -/
theorem c8_counterexample :
    verify_repo_checksums (fun _ => "h") none [("a", FSTree.file (some [1]))]
      ⟨"u", "c", [("a", "w")], "t", "s"⟩ =
    verify_repo_checksums (fun _ => "h") none []
      ⟨"u", "c", [("b", "w")], "t", "s"⟩ ∧
    specChangedCount (walkAcc (fun _ => "h") [("a", FSTree.file (some [1]))] "" [])
      [("a", "w")] = 1 ∧
    specChangedCount (walkAcc (fun _ => "h") [] "" []) [("b", "w")] = 0 ∧
    specMissingCount (walkAcc (fun _ => "h") [("a", FSTree.file (some [1]))] "" [])
      [("a", "w")] = 0 ∧
    specMissingCount (walkAcc (fun _ => "h") [] "" []) [("b", "w")] = 1 := by
  decide

/-- C8 (amended): `verify_repo_checksums` classifies each difference along
the spec's three axes but aggregates them — `issues` is the sum of the three
axis counts (see `verify_characterization`) and only the aggregate plus the
boolean verdict is reported.  Adding one untracked (readable, non-skipped,
fresh-named) file to a tree and verifying against the fingerprint of the
original tree yields exactly one issue, which is an unexpected-file issue
(unexpected = 1, changed = missing = 0), leaves every original file verified
(`verified` = number of tracked files), and does not affect the digest
recorded for any other file. -/
theorem c8_amended_unexpected_file (hash : List Nat → String) (c c2 r : Option String)
    (now name : String) (content : List Nat) (root : List (String × FSTree))
    (hskip : skipName name = false)
    (hfresh : lookupA (walkAcc hash root "" []) name = none) :
    walkAcc hash (root ++ [(name, FSTree.file (some content))]) "" [] =
      walkAcc hash root "" [] ++ [(name, hash content)] ∧
    (verify_repo_checksums hash c (root ++ [(name, FSTree.file (some content))])
      (calculate_repo_checksums hash c2 r now root)).issues = 1 ∧
    (verify_repo_checksums hash c (root ++ [(name, FSTree.file (some content))])
      (calculate_repo_checksums hash c2 r now root)).allMatch = false ∧
    (verify_repo_checksums hash c (root ++ [(name, FSTree.file (some content))])
      (calculate_repo_checksums hash c2 r now root)).verified =
      (walkAcc hash root "" []).length ∧
    specUnexpectedCount (walkAcc hash root "" [] ++ [(name, hash content)])
      (walkAcc hash root "" []) = 1 ∧
    specChangedCount (walkAcc hash root "" [] ++ [(name, hash content)])
      (walkAcc hash root "" []) = 0 ∧
    specMissingCount (walkAcc hash root "" [] ++ [(name, hash content)])
      (walkAcc hash root "" []) = 0 ∧
    (∀ k, containsKeyA (walkAcc hash root "" []) k = true →
      lookupA (walkAcc hash (root ++ [(name, FSTree.file (some content))]) "" []) k =
        lookupA (walkAcc hash root "" []) k) := by
  have hnd := nodupKeys_walkAcc hash root ""
  have hnotmem : name ∉ (walkAcc hash root "" []).map (fun p => p.1) := by
    intro hmem
    have := (lookupA_isSome_iff (walkAcc hash root "" []) name).mpr hmem
    rw [hfresh] at this
    simp at this
  have hwalk2 : walkAcc hash (root ++ [(name, FSTree.file (some content))]) "" [] =
      walkAcc hash root "" [] ++ [(name, hash content)] := by
    rw [walkAcc_append, walkAcc, walkAcc, walkTreeAcc]
    rw [if_neg (by simp [hskip])]
    have hjoin : joinPath "" name = name := by simp [joinPath]
    rw [hjoin, insertA_of_fresh (hash content) hnotmem]
  have hlookup_keep : ∀ k, containsKeyA (walkAcc hash root "" []) k = true →
      lookupA (walkAcc hash root "" [] ++ [(name, hash content)]) k =
        lookupA (walkAcc hash root "" []) k := by
    intro k hk
    exact lookupA_append_left _ hk
  have hlook : ∀ p ∈ walkAcc hash root "" [],
      lookupA (walkAcc hash root "" []) p.1 = some p.2 := by
    intro p hp
    obtain ⟨k, v⟩ := p
    exact lookupA_eq_some_of_mem hnd hp
  have hlook2 : ∀ p ∈ walkAcc hash root "" [],
      lookupA (walkAcc hash root "" [] ++ [(name, hash content)]) p.1 = some p.2 := by
    intro p hp
    rw [hlookup_keep p.1 (by simp [containsKeyA, hlook p hp]), hlook p hp]
  have hchanged : specChangedCount (walkAcc hash root "" [] ++ [(name, hash content)])
      (walkAcc hash root "" []) = 0 := by
    rw [specChangedCount, List.countP_eq_zero]
    intro p hp
    simp [hlook2 p hp]
  have hmissing : specMissingCount (walkAcc hash root "" [] ++ [(name, hash content)])
      (walkAcc hash root "" []) = 0 := by
    rw [specMissingCount, List.countP_eq_zero]
    intro p hp
    simp [hlook2 p hp]
  have hunexp : specUnexpectedCount (walkAcc hash root "" [] ++ [(name, hash content)])
      (walkAcc hash root "" []) = 1 := by
    rw [specUnexpectedCount]
    simp only [List.map_append, List.countP_append]
    have h1 : ((walkAcc hash root "" []).map (fun p => p.1)).countP
        (fun k => !(containsKeyA (walkAcc hash root "" []) k)) = 0 := by
      rw [List.countP_eq_zero]
      intro k hk
      have : (lookupA (walkAcc hash root "" []) k).isSome = true :=
        (lookupA_isSome_iff _ k).mpr hk
      simp [containsKeyA, this]
    have h2 : (([(name, hash content)]).map (fun p => p.1)).countP
        (fun k => !(containsKeyA (walkAcc hash root "" []) k)) = 1 := by
      simp [List.countP_cons, containsKeyA, hfresh]
    rw [h1, h2]
  have hmatched : matchedCount (walkAcc hash root "" [] ++ [(name, hash content)])
      (walkAcc hash root "" []) = (walkAcc hash root "" []).length := by
    rw [matchedCount, List.countP_eq_length]
    intro p hp
    simp [hlook2 p hp]
  have hexp : (calculate_repo_checksums hash c2 r now root).file_checksums =
      walkAcc hash root "" [] := rfl
  refine ⟨hwalk2, ?_, ?_, ?_, hunexp, hchanged, hmissing, ?_⟩
  · rw [verify_characterization, hexp, hwalk2, hchanged, hmissing, hunexp]
  · rw [verify_characterization, hexp, hwalk2, hchanged, hmissing, hunexp]
    simp
  · rw [verify_characterization, hexp, hwalk2, hmatched]
  · intro k hk
    rw [hwalk2]
    exact hlookup_keep k hk

/-- Witness for the amended C8 at a concrete one-file tree plus one
untracked file. -/
theorem c8_amended_witness :
    (skipName "b" = false ∧
     lookupA (walkAcc (fun _ => "h") [("a", FSTree.file (some [1]))] "" []) "b" = none) ∧
    (verify_repo_checksums (fun _ => "h") none
      ([("a", FSTree.file (some [1]))] ++ [("b", FSTree.file (some [2]))])
      (calculate_repo_checksums (fun _ => "h") none none "t"
        [("a", FSTree.file (some [1]))])).issues = 1 ∧
    (verify_repo_checksums (fun _ => "h") none
      ([("a", FSTree.file (some [1]))] ++ [("b", FSTree.file (some [2]))])
      (calculate_repo_checksums (fun _ => "h") none none "t"
        [("a", FSTree.file (some [1]))])).allMatch = false :=
  ⟨⟨by decide, by decide⟩,
   (c8_amended_unexpected_file (fun _ => "h") none none none "t" "b" [2]
      [("a", FSTree.file (some [1]))] (by decide) (by decide)).2.1,
   (c8_amended_unexpected_file (fun _ => "h") none none none "t" "b" [2]
      [("a", FSTree.file (some [1]))] (by decide) (by decide)).2.2.1⟩

/-! ## The heuristic scanner (`src/security.rs`, `scan_for_suspicious_patterns`)

The scan looks one directory level deep: its input is the listing of the
root directory, `none` when the root does not exist.  An entry's `content`
is `none` when `fs::read_to_string` fails (unreadable or non-UTF-8). -/

/-- One entry of the scanned directory as the scanner observes it. -/
structure ScanEntry where
  name : String
  isFile : Bool
  content : Option String
deriving DecidableEq

/-- Splitting a character list at a separator (all occurrences). -/
def splitCh (c : Char) : List Char → List (List Char)
  | [] => [[]]
  | a :: rest =>
    match splitCh c rest with
    | [] => [[]]
    | g :: gs => if a = c then [] :: g :: gs else (a :: g) :: gs

/-- Rust `Path::extension` for a (non-hidden) file name: the portion after
the last dot, or none when the name has no dot. -/
def extOf (name : String) : Option String :=
  match splitCh '.' name.data with
  | [] => none
  | [_] => none
  | _ :: q :: rest => some (String.mk ((q :: rest).getLastD []))

/-- The fixed substring→description table (security.rs lines 91-103), in
source order. -/
def suspicious_patterns : List (String × String) :=
  [("eval(", "eval() usage"),
   ("exec(", "exec() usage"),
   ("subprocess", "subprocess usage"),
   ("os.system", "os.system usage"),
   ("shell=True", "shell=True"),
   ("/etc/passwd", "password file access"),
   ("rm -rf", "recursive deletion"),
   ("curl", "network request"),
   ("base64.b64decode", "base64 decode"),
   ("authorized_keys", "SSH keys access"),
   ("bitcoin", "crypto-related")]

/-- The fixed allow-list of source-like extensions (security.rs line 105). -/
def sourceExtensions : List String :=
  ["py", "js", "sh", "bash", "rb", "pl", "php", "rs"]

/-- The inner pattern loop (security.rs lines 124-132): the first matching
pattern's description wins and the loop breaks. -/
def firstPatternMatch (contentLower : String) : List (String × String) → Option String
  | [] => none
  | (pat, desc) :: rest =>
    if strContainsSub contentLower (strToLower pat) then some desc
    else firstPatternMatch contentLower rest

/-- The warning (if any) one directory entry contributes: skip rule, file
test, extension allow-list, readability, then the pattern loop, in source
order (security.rs lines 108-136). -/
def findingFor (e : ScanEntry) : Option String :=
  if strStartsWith e.name "." || e.name == "node_modules" then none
  else if e.isFile then
    match extOf e.name with
    | some ext =>
      if sourceExtensions.contains ext then
        match e.content with
        | some content =>
          match firstPatternMatch (strToLower content) suspicious_patterns with
          | some desc => some (e.name ++ ": " ++ desc)
          | none => none
        | none => none
      else none
    | none => none
  else none

/-- Rust `Vec::dedup`: removes consecutive duplicates. -/
def dedupAdj : List String → List String
  | [] => []
  | [a] => [a]
  | a :: b :: rest => if a = b then dedupAdj (b :: rest) else a :: dedupAdj (b :: rest)

/-- `scan_for_suspicious_patterns` (security.rs lines 83-143): a missing
root yields no warnings; otherwise each entry contributes at most one
warning, and the list is sorted then deduplicated. -/
def scan_for_suspicious_patterns : Option (List ScanEntry) → List String
  | none => []
  | some entries =>
    dedupAdj ((entries.filterMap findingFor).mergeSort (fun a b => strLe a b))

theorem dedupAdj_sublist : ∀ l : List String, (dedupAdj l).Sublist l := by
  intro l
  induction l using dedupAdj.induct with
  | case1 => simp [dedupAdj]
  | case2 a => simp [dedupAdj]
  | case3 b rest ih =>
    rw [dedupAdj, if_pos rfl]
    exact ih.cons b
  | case4 a b rest hab ih =>
    rw [dedupAdj, if_neg hab]
    exact ih.cons₂ a

theorem dedupAdj_nodup :
    ∀ l : List String, l.Pairwise (fun a b => strLe a b = true) → (dedupAdj l).Nodup := by
  intro l
  induction l using dedupAdj.induct with
  | case1 => intro _; simp [dedupAdj]
  | case2 a => intro _; simp [dedupAdj]
  | case3 b rest ih =>
    intro hs
    rw [dedupAdj, if_pos rfl]
    exact ih (List.pairwise_cons.mp hs).2
  | case4 a b rest hab ih =>
    intro hs
    rw [dedupAdj, if_neg hab]
    rw [List.nodup_cons]
    refine ⟨?_, ih (List.pairwise_cons.mp hs).2⟩
    intro hmem
    have hmem2 : a ∈ b :: rest := (dedupAdj_sublist (b :: rest)).subset hmem
    have hsle := (List.pairwise_cons.mp hs).1
    rcases List.mem_cons.mp hmem2 with h | h
    · exact hab h
    · have h1 : strLe a b = true := hsle b (by simp)
      have h2 : strLe b a = true := by
        have hba : strLe b a = true :=
          (List.pairwise_cons.mp (List.pairwise_cons.mp hs).2).1 a h
        exact hba
      exact hab (strLe_antisymm h1 h2)

theorem sortStrings_sorted (l : List String) :
    (l.mergeSort (fun a b => strLe a b)).Pairwise (fun a b => strLe a b = true) := by
  exact @List.sorted_mergeSort String (fun a b => strLe a b)
    (fun a b c hab hbc => strLe_trans hab hbc)
    (fun a b => by
      rcases strLe_total a b with h | h
      · simp [h]
      · simp [h])
    l

theorem dedupAdj_pairwise (l : List String)
    (h : l.Pairwise (fun a b => strLe a b = true)) :
    (dedupAdj l).Pairwise (fun a b => strLe a b = true) :=
  h.sublist (dedupAdj_sublist l)

theorem findingFor_unreadable {e : ScanEntry} (h : e.content = none) :
    findingFor e = none := by
  rw [findingFor]
  split
  · rfl
  · split
    · rcases hext : extOf e.name with _ | ext
      · rfl
      · simp only [h]
        split
        · rfl
        · rfl
    · rfl

/-- C9: the heuristic scan never fails — a missing root yields the empty
finding list and an unreadable entry contributes nothing; each scanned
entry yields at most one finding, the first matching pattern of the table
winning; and the returned list is sorted and duplicate-free.  Scanning the
same listing twice trivially yields the same findings, the scan being a
pure function of the listing. -/
theorem c9_scan_contract :
    scan_for_suspicious_patterns none = [] ∧
    (∀ (l1 l2 : List ScanEntry) (e : ScanEntry), e.content = none →
      scan_for_suspicious_patterns (some (l1 ++ e :: l2)) =
        scan_for_suspicious_patterns (some (l1 ++ l2))) ∧
    (∀ entries : List ScanEntry,
      (entries.filterMap findingFor).length ≤ entries.length) ∧
    (∀ (c : String) (ps : List (String × String)),
      firstPatternMatch c ps =
        (ps.find? (fun p => strContainsSub c (strToLower p.1))).map (fun p => p.2)) ∧
    (∀ x : Option (List ScanEntry),
      (scan_for_suspicious_patterns x).Pairwise (fun a b => strLe a b = true) ∧
      (scan_for_suspicious_patterns x).Nodup) := by
  refine ⟨rfl, ?_, ?_, ?_, ?_⟩
  · intro l1 l2 e he
    simp only [scan_for_suspicious_patterns, List.filterMap_append, List.filterMap_cons,
      findingFor_unreadable he]
  · intro entries
    exact List.length_filterMap_le findingFor entries
  · intro c ps
    induction ps with
    | nil => rfl
    | cons p rest ih =>
      obtain ⟨pat, desc⟩ := p
      by_cases h : strContainsSub c (strToLower pat) = true
      · simp [firstPatternMatch, List.find?_cons, h]
      · rw [Bool.not_eq_true] at h
        simp [firstPatternMatch, List.find?_cons, h, ih]
  · intro x
    cases x with
    | none => simp [scan_for_suspicious_patterns]
    | some entries =>
      have hs := sortStrings_sorted (entries.filterMap findingFor)
      exact ⟨dedupAdj_pairwise _ hs, dedupAdj_nodup _ hs⟩

/-- Witness for C9: dropping a concrete unreadable entry from a concrete
listing leaves the scan unchanged. -/
theorem c9_witness :
    (ScanEntry.mk "x.py" true none).content = none ∧
    scan_for_suspicious_patterns
        (some ([ScanEntry.mk "a.py" true (some "run eval( now)")] ++
          ScanEntry.mk "x.py" true none :: [])) =
      scan_for_suspicious_patterns
        (some ([ScanEntry.mk "a.py" true (some "run eval( now)")] ++ [])) :=
  ⟨rfl, c9_scan_contract.2.1 [ScanEntry.mk "a.py" true (some "run eval( now)")] []
    (ScanEntry.mk "x.py" true none) rfl⟩

/-! ## The persisted configuration (`src/config.rs`) -/

/-- `GitFetchConfig` (config.rs lines 7-11).  The Rust
`checksum_registry : HashMap<String, RepoChecksum>` is an association
list. -/
structure GitFetchConfig where
  installed_repos : List InstalledRepo
  checksum_registry : List (String × RepoChecksum)
deriving DecidableEq

/-- The on-disk configuration file as `GitFetchConfig::load` observes it. -/
inductive ConfigFile where
  | absent : ConfigFile
  | present (contents : String) : ConfigFile

/-- `GitFetchConfig::load` (config.rs lines 14-29): a missing file yields
the empty configuration, and a present file whose JSON fails to parse is
silently replaced by the empty configuration (`unwrap_or_else`).  The
serde-json parser is external, passed as `parse`. -/
def GitFetchConfig.load (parse : String → Option GitFetchConfig) :
    ConfigFile → GitFetchConfig
  | .absent => { installed_repos := [], checksum_registry := [] }
  | .present contents =>
    match parse contents with
    | some cfg => cfg
    | none => { installed_repos := [], checksum_registry := [] }

/-- `GitFetchConfig::get_checksum` (config.rs lines 71-73). -/
def GitFetchConfig.get_checksum (cfg : GitFetchConfig) (repo_url : String) :
    Option RepoChecksum :=
  lookupA cfg.checksum_registry repo_url

/-- C10: when the configuration file exists but its JSON fails to parse,
`load` silently returns the empty configuration — no installed repositories
and an empty checksum registry — so every previously saved fingerprint is
invisible: `get_checksum` answers `none` for every URL. -/
theorem c10_corrupt_config_loads_empty (parse : String → Option GitFetchConfig)
    (contents : String) (h : parse contents = none) :
    GitFetchConfig.load parse (ConfigFile.present contents) =
      { installed_repos := [], checksum_registry := [] } ∧
    (∀ url, (GitFetchConfig.load parse (ConfigFile.present contents)).get_checksum url
      = none) := by
  have hload : GitFetchConfig.load parse (ConfigFile.present contents) =
      { installed_repos := [], checksum_registry := [] } := by
    simp [GitFetchConfig.load, h]
  exact ⟨hload, fun url => by rw [hload]; rfl⟩

/-- Witness for C10 with a parser that rejects the concrete contents. -/
theorem c10_witness :
    ((fun _ : String => (none : Option GitFetchConfig)) "not json" = none) ∧
    (GitFetchConfig.load (fun _ => none) (ConfigFile.present "not json")).get_checksum
      "https://github.com/o/r" = none :=
  ⟨rfl, (c10_corrupt_config_loads_empty (fun _ => none) "not json" rfl).2
    "https://github.com/o/r"⟩

/-! ## The acquisition pipeline (`src/commands/clone.rs`)

`clone_repo` is modelled as a pure function from the outcomes of all
external effects (sandbox availability, filesystem state, the two config
loads, prompt answers, the two git stages, verification, the scan, the
copy) to the trace of observable events it performs, in program order.
`std::process::exit(n)` ends the trace with `Event.exitCode n`. -/

/-- One observable step of `clone_repo`. -/
inductive Event where
  | checkBubblewrap (ok : Bool) : Event
  | invalidFormat : Event
  | createDir (path : String) : Event
  | removeDir (path : String) : Event
  | loadConfig : Event
  | prompt (message : String) (answer : Bool) : Event
  | gitCall (workspace : String) (args : List String) (net : Bool) : Event
  | verifyRun (passed : Option Bool) : Event
  | scanRun (warnings : List String) : Event
  | copyRun (ok : Bool) : Event
  | addRepo (verified : Bool) : Event
  | exitCode (n : Nat) : Event
deriving DecidableEq

/-- Outcomes of the external effects, fixed per run. -/
structure CloneEnv where
  bubblewrapOk : Bool
  homeDir : String
  workspaceExists : Bool
  config1 : GitFetchConfig
  config2 : GitFetchConfig
  answerFetch : Bool
  answerVerifyFail : Bool
  answerScan : Bool
  answerCopy : Bool
  cloneOk : Bool
  checkoutOk : Bool
  commitHash : Option String
  verifyOutcome : Except String Bool
  scanWarnings : List String
  copyOk : Bool

/-- URL resolution (clone.rs lines 12-19). -/
def resolveUrl (repo : String) : Option String :=
  if strStartsWith repo "http://" || strStartsWith repo "https://" then some repo
  else if repo.data.contains '/' then some ("https://github.com/" ++ repo)
  else none

/-- Rust `str::trim_end_matches`: strips every trailing occurrence of the
suffix (fuel-recursive so that it reduces in the kernel). -/
def trimSuffixAll (suf : List Char) : Nat → List Char → List Char
  | 0, s => s
  | fuel + 1, s =>
    if suf.isSuffixOf s && !suf.isEmpty then
      trimSuffixAll suf fuel (s.take (s.length - suf.length))
    else s

/-- `repo_url.trim_end_matches(".git").split('/').last()` (clone.rs lines
21-26). -/
def parseRepoName (url : String) : String :=
  String.mk ((splitCh '/' (trimSuffixAll ".git".data url.data.length url.data)).getLastD [])

def msgFetch : String := "WARNING: Clone from untrusted source?\nProceed? (yes/no)"

def msgVerifyFail : String := "\nVerification failed. Proceed? (yes/no)"

def msgScan : String := "\nSuspicious code detected. Proceed? (yes/no)"

def msgCopy : String := "\nCopy to current directory? (yes/no)"

/-- The materialization step (clone.rs lines 146-173): only paranoid mode
prompts before copying; the acquisition record is appended either way. -/
def copyPhase (env : CloneEnv) (tm : String) (verified : Bool) : List Event :=
  if tm == "paranoid" then
    Event.prompt msgCopy env.answerCopy ::
      (if env.answerCopy then [Event.copyRun env.copyOk, Event.addRepo verified]
       else [Event.addRepo verified])
  else [Event.copyRun env.copyOk, Event.addRepo verified]

/-- The heuristic scan and its trust gate (clone.rs lines 122-144): only
paranoid mode prompts on findings; declining removes the workspace and
exits 0. -/
def scanPhase (env : CloneEnv) (tm ws : String) (verified : Bool) : List Event :=
  Event.scanRun env.scanWarnings ::
    (if env.scanWarnings.isEmpty then copyPhase env tm verified
     else if tm == "paranoid" then
       Event.prompt msgScan env.answerScan ::
         (if env.answerScan then copyPhase env tm verified
          else [Event.removeDir ws, Event.exitCode 0])
     else copyPhase env tm verified)

/-- The optional checksum verification and its trust gate (clone.rs lines
100-120): run only when the (re-loaded) registry knows the URL; on failure
every mode but yolo prompts; declining removes the workspace and exits 0;
a verification error is reported and execution continues unverified. -/
def verifyPhase (env : CloneEnv) (tm ws repo_url : String) : List Event :=
  match env.config2.get_checksum repo_url with
  | some _ =>
    match env.verifyOutcome with
    | .ok true => Event.verifyRun (some true) :: scanPhase env tm ws true
    | .ok false =>
      Event.verifyRun (some false) ::
        (if tm == "yolo" then scanPhase env tm ws false
         else Event.prompt msgVerifyFail env.answerVerifyFail ::
           (if env.answerVerifyFail then scanPhase env tm ws false
            else [Event.removeDir ws, Event.exitCode 0]))
    | .error _ => Event.verifyRun none :: scanPhase env tm ws false
  | none => scanPhase env tm ws false

/-- The two sandboxed git stages (clone.rs lines 69-98): stage 1 is
`clone --no-checkout` with the network allowed, stage 2 is
`checkout --force HEAD` with the network disabled; either failure removes
the workspace and exits 1. -/
def stagesPhase (env : CloneEnv) (tm ws wsRepo repo_url : String) : List Event :=
  Event.gitCall ws ["clone", "--no-checkout", repo_url] true ::
    (if env.cloneOk then
      Event.gitCall wsRepo ["checkout", "--force", "HEAD"] false ::
        (if env.checkoutOk then Event.loadConfig :: verifyPhase env tm ws repo_url
         else [Event.removeDir ws, Event.exitCode 1])
     else [Event.removeDir ws, Event.exitCode 1])

/-- The before-fetch trust gate (clone.rs lines 53-67): paranoid always
prompts, yolo never, any other mode prompts exactly when no fingerprint is
known; declining exits 0. -/
def promptPhase (env : CloneEnv) (tm ws wsRepo repo_url : String) (hasChecksum : Bool) :
    List Event :=
  if (if tm == "paranoid" then true
      else if tm == "yolo" then false
      else !hasChecksum) then
    Event.prompt msgFetch env.answerFetch ::
      (if env.answerFetch then stagesPhase env tm ws wsRepo repo_url
       else [Event.exitCode 0])
  else stagesPhase env tm ws wsRepo repo_url

/-- `clone_repo` (clone.rs lines 9-183) as its event trace. -/
def clone_repo (env : CloneEnv) (repo : String) (verify_checksum : Bool) (tm : String) :
    List Event :=
  if !env.bubblewrapOk then [Event.checkBubblewrap false, Event.exitCode 1]
  else
    match resolveUrl repo with
    | none => [Event.checkBubblewrap true, Event.invalidFormat, Event.exitCode 1]
    | some repo_url =>
      [Event.checkBubblewrap true,
       Event.createDir (env.homeDir ++ "/.gitfetch/workspace")] ++
      (if env.workspaceExists then
        [Event.removeDir (env.homeDir ++ "/.gitfetch/workspace/" ++ parseRepoName repo_url)]
       else []) ++
      [Event.createDir (env.homeDir ++ "/.gitfetch/workspace/" ++ parseRepoName repo_url),
       Event.loadConfig] ++
      (if verify_checksum && !(env.config1.get_checksum repo_url).isSome then
        [Event.exitCode 1]
       else
        promptPhase env tm
          (env.homeDir ++ "/.gitfetch/workspace/" ++ parseRepoName repo_url)
          (env.homeDir ++ "/.gitfetch/workspace/" ++ parseRepoName repo_url ++ "/" ++
            parseRepoName repo_url)
          repo_url
          (env.config1.get_checksum repo_url).isSome)

/-! ## Phase lemmas: which events each phase can emit -/

theorem gitCall_not_in_copyPhase (env : CloneEnv) (tm : String) (v : Bool)
    (w : String) (a : List String) (n : Bool) :
    Event.gitCall w a n ∉ copyPhase env tm v := by
  rw [copyPhase]
  split
  · split <;> simp
  · simp

theorem gitCall_not_in_scanPhase (env : CloneEnv) (tm ws : String) (v : Bool)
    (w : String) (a : List String) (n : Bool) :
    Event.gitCall w a n ∉ scanPhase env tm ws v := by
  rw [scanPhase]
  split
  · simp [gitCall_not_in_copyPhase]
  · split
    · split <;> simp [gitCall_not_in_copyPhase]
    · simp [gitCall_not_in_copyPhase]

theorem gitCall_not_in_verifyPhase (env : CloneEnv) (tm ws url : String)
    (w : String) (a : List String) (n : Bool) :
    Event.gitCall w a n ∉ verifyPhase env tm ws url := by
  rw [verifyPhase]
  split
  · split
    · simp [gitCall_not_in_scanPhase]
    · split
      · simp [gitCall_not_in_scanPhase]
      · split <;> simp [gitCall_not_in_scanPhase]
    · simp [gitCall_not_in_scanPhase]
  · exact gitCall_not_in_scanPhase env tm ws false w a n

theorem gitCall_in_stagesPhase {env : CloneEnv} {tm ws wsRepo url : String}
    {w : String} {a : List String} {n : Bool}
    (h : Event.gitCall w a n ∈ stagesPhase env tm ws wsRepo url) :
    (a = ["clone", "--no-checkout", url] ∧ n = true) ∨
    (a = ["checkout", "--force", "HEAD"] ∧ n = false) := by
  rw [stagesPhase] at h
  rcases List.mem_cons.mp h with h1 | h2
  · left
    have := Event.gitCall.injEq w a n ws ["clone", "--no-checkout", url] true
    rw [this] at h1
    exact ⟨h1.2.1, h1.2.2⟩
  · split at h2
    · rcases List.mem_cons.mp h2 with h3 | h4
      · right
        have := Event.gitCall.injEq w a n wsRepo ["checkout", "--force", "HEAD"] false
        rw [this] at h3
        exact ⟨h3.2.1, h3.2.2⟩
      · split at h4
        · rcases List.mem_cons.mp h4 with h5 | h6
          · exact absurd h5 (by simp)
          · exact absurd h6 (gitCall_not_in_verifyPhase env tm ws url w a n)
        · simp at h4
    · simp at h2

theorem prompt_in_copyPhase {env : CloneEnv} {tm : String} {v : Bool}
    {m : String} {a : Bool} (h : Event.prompt m a ∈ copyPhase env tm v) :
    (tm == "paranoid") = true ∧ m = msgCopy := by
  rw [copyPhase] at h
  split at h
  · rename_i hc
    refine ⟨hc, ?_⟩
    rcases List.mem_cons.mp h with h1 | h2
    · exact ((Event.prompt.injEq m a msgCopy env.answerCopy).mp h1).1
    · split at h2 <;> simp at h2
  · simp at h

theorem prompt_in_scanPhase {env : CloneEnv} {tm ws : String} {v : Bool}
    {m : String} {a : Bool} (h : Event.prompt m a ∈ scanPhase env tm ws v) :
    (tm == "paranoid") = true ∧ (m = msgScan ∨ m = msgCopy) := by
  rw [scanPhase] at h
  rcases List.mem_cons.mp h with h1 | h2
  · exact absurd h1 (by simp)
  · split at h2
    · obtain ⟨hc, hm⟩ := prompt_in_copyPhase h2
      exact ⟨hc, Or.inr hm⟩
    · split at h2
      · rename_i hc
        refine ⟨hc, ?_⟩
        rcases List.mem_cons.mp h2 with h3 | h4
        · exact Or.inl ((Event.prompt.injEq m a msgScan env.answerScan).mp h3).1
        · split at h4
          · exact Or.inr (prompt_in_copyPhase h4).2
          · simp at h4
      · obtain ⟨hc, hm⟩ := prompt_in_copyPhase h2
        exact ⟨hc, Or.inr hm⟩

theorem prompt_in_verifyPhase {env : CloneEnv} {tm ws url : String}
    {m : String} {a : Bool} (h : Event.prompt m a ∈ verifyPhase env tm ws url) :
    (m = msgVerifyFail ∧ (tm == "yolo") = false) ∨
    ((tm == "paranoid") = true ∧ (m = msgScan ∨ m = msgCopy)) := by
  rw [verifyPhase] at h
  split at h
  · split at h
    · rcases List.mem_cons.mp h with h1 | h2
      · exact absurd h1 (by simp)
      · exact Or.inr (prompt_in_scanPhase h2)
    · rcases List.mem_cons.mp h with h1 | h2
      · exact absurd h1 (by simp)
      · split at h2
        · rename_i hyolo
          exact Or.inr (prompt_in_scanPhase h2)
        · rename_i hyolo
          rcases List.mem_cons.mp h2 with h3 | h4
          · left
            refine ⟨((Event.prompt.injEq m a msgVerifyFail env.answerVerifyFail).mp h3).1, ?_⟩
            rw [Bool.not_eq_true] at hyolo
            exact hyolo
          · split at h4
            · exact Or.inr (prompt_in_scanPhase h4)
            · simp at h4
    · rcases List.mem_cons.mp h with h1 | h2
      · exact absurd h1 (by simp)
      · exact Or.inr (prompt_in_scanPhase h2)
  · exact Or.inr (prompt_in_scanPhase h)

theorem prompt_in_stagesPhase {env : CloneEnv} {tm ws wsRepo url : String}
    {m : String} {a : Bool} (h : Event.prompt m a ∈ stagesPhase env tm ws wsRepo url) :
    (m = msgVerifyFail ∧ (tm == "yolo") = false) ∨
    ((tm == "paranoid") = true ∧ (m = msgScan ∨ m = msgCopy)) := by
  rw [stagesPhase] at h
  rcases List.mem_cons.mp h with h1 | h2
  · exact absurd h1 (by simp)
  · split at h2
    · rcases List.mem_cons.mp h2 with h3 | h4
      · exact absurd h3 (by simp)
      · split at h4
        · rcases List.mem_cons.mp h4 with h5 | h6
          · exact absurd h5 (by simp)
          · exact prompt_in_verifyPhase h6
        · simp at h4
    · simp at h2

theorem gitCall_in_promptPhase {env : CloneEnv} {tm ws wsRepo url : String} {has : Bool}
    {w : String} {a : List String} {n : Bool}
    (h : Event.gitCall w a n ∈ promptPhase env tm ws wsRepo url has) :
    (a = ["clone", "--no-checkout", url] ∧ n = true) ∨
    (a = ["checkout", "--force", "HEAD"] ∧ n = false) := by
  rw [promptPhase] at h
  by_cases hc : (if tm == "paranoid" then true
      else if tm == "yolo" then false else !has) = true
  · rw [if_pos hc] at h
    rcases List.mem_cons.mp h with h1 | h2
    · exact absurd h1 (by simp)
    · split at h2
      · exact gitCall_in_stagesPhase h2
      · simp at h2
  · rw [if_neg hc] at h
    exact gitCall_in_stagesPhase h

theorem fetchPrompt_not_in_stagesPhase (env : CloneEnv) (tm ws wsRepo url : String)
    (a : Bool) : Event.prompt msgFetch a ∉ stagesPhase env tm ws wsRepo url := by
  intro h
  rcases prompt_in_stagesPhase h with ⟨hm, _⟩ | ⟨_, hm | hm⟩
  · exact absurd hm (by decide)
  · exact absurd hm (by decide)
  · exact absurd hm (by decide)

theorem fetchPrompt_promptPhase_iff (env : CloneEnv) (tm ws wsRepo url : String)
    (has : Bool) :
    (Event.prompt msgFetch env.answerFetch ∈ promptPhase env tm ws wsRepo url has) ↔
    (if tm == "paranoid" then true
     else if tm == "yolo" then false
     else !has) = true := by
  rw [promptPhase]
  by_cases hc : (if tm == "paranoid" then true
      else if tm == "yolo" then false else !has) = true
  · rw [if_pos hc]
    exact iff_of_true (List.mem_cons_self _ _) hc
  · rw [if_neg hc]
    constructor
    · intro hmem
      exact absurd hmem (fetchPrompt_not_in_stagesPhase env tm ws wsRepo url env.answerFetch)
    · intro hct
      exact absurd hct hc

theorem yolo_no_prompt_in_promptPhase (env : CloneEnv) (ws wsRepo url : String)
    (has : Bool) (m : String) (a : Bool) :
    Event.prompt m a ∉ promptPhase env "yolo" ws wsRepo url has := by
  intro h
  rw [promptPhase] at h
  have hcond : (if ("yolo" : String) == "paranoid" then true
      else if ("yolo" : String) == "yolo" then false
      else !has) = false := by
    rw [show (("yolo" : String) == "paranoid") = false from by decide,
      show (("yolo" : String) == "yolo") = true from by decide]
    simp
  rw [hcond] at h
  simp only [Bool.false_eq_true, if_false] at h
  rcases prompt_in_stagesPhase h with ⟨_, hy⟩ | ⟨hp, _⟩
  · exact absurd hy (by decide)
  · exact absurd hp (by decide)

/-! ## Claims C3, C4, C5, C6 -/

/-- C3: in every run of the pipeline, every sandboxed git invocation in the
trace is either stage 1 — `clone --no-checkout` of the resolved URL with the
network allowed — or stage 2 — `checkout --force HEAD` with the network
disabled.  In particular the checkout stage is never given network
access. -/
theorem c3_checkout_never_networked (env : CloneEnv) (repo : String) (vc : Bool)
    (tm : String) (w : String) (a : List String) (n : Bool)
    (h : Event.gitCall w a n ∈ clone_repo env repo vc tm) :
    (∃ url, resolveUrl repo = some url ∧ a = ["clone", "--no-checkout", url] ∧ n = true) ∨
    (a = ["checkout", "--force", "HEAD"] ∧ n = false) := by
  rw [clone_repo] at h
  split at h
  · simp at h
  · split at h
    · simp at h
    · rename_i url hurl
      rcases List.mem_append.mp h with h1 | h2
      · rcases List.mem_append.mp h1 with h3 | h4
        · rcases List.mem_append.mp h3 with h5 | h6
          · simp at h5
          · split at h6 <;> simp at h6
        · simp at h4
      · split at h2
        · simp at h2
        · rcases gitCall_in_promptPhase h2 with ⟨ha, hn⟩ | hright
          · exact Or.inl ⟨url, hurl, ha, hn⟩
          · exact Or.inr hright

/-- C5: in yolo trust mode no decision point of the pipeline ever prompts:
no `prompt` event, with any message or answer, appears in any trace. -/
theorem c5_yolo_never_prompts (env : CloneEnv) (repo : String) (vc : Bool)
    (tm : String) (htm : tm = "yolo") (m : String) (a : Bool) :
    Event.prompt m a ∉ clone_repo env repo vc tm := by
  subst htm
  intro h
  rw [clone_repo] at h
  split at h
  · simp at h
  · split at h
    · simp at h
    · rcases List.mem_append.mp h with h1 | h2
      · rcases List.mem_append.mp h1 with h3 | h4
        · rcases List.mem_append.mp h3 with h5 | h6
          · simp at h5
          · split at h6 <;> simp at h6
        · simp at h4
      · split at h2
        · simp at h2
        · exact yolo_no_prompt_in_promptPhase env _ _ _ _ m a h2

/-- C6: at the before-fetch decision point (once the sandbox check, URL
resolution and the `--verify-checksum` precondition have let the pipeline
reach it), paranoid mode always prompts, normal mode prompts exactly when
the registry has no fingerprint for the resolved URL, and yolo mode never
prompts. -/
theorem c6_before_fetch_prompt_matrix (env : CloneEnv) (repo url : String) (vc : Bool)
    (tm : String)
    (hbw : env.bubblewrapOk = true)
    (hurl : resolveUrl repo = some url)
    (hpre : (vc && !(env.config1.get_checksum url).isSome) = false) :
    (tm = "paranoid" → Event.prompt msgFetch env.answerFetch ∈ clone_repo env repo vc tm) ∧
    (tm = "normal" →
      ((Event.prompt msgFetch env.answerFetch ∈ clone_repo env repo vc tm) ↔
        (env.config1.get_checksum url).isSome = false)) ∧
    (tm = "yolo" → Event.prompt msgFetch env.answerFetch ∉ clone_repo env repo vc tm) := by
  have hmem : (Event.prompt msgFetch env.answerFetch ∈ clone_repo env repo vc tm) ↔
      (Event.prompt msgFetch env.answerFetch ∈
        promptPhase env tm
          (env.homeDir ++ "/.gitfetch/workspace/" ++ parseRepoName url)
          (env.homeDir ++ "/.gitfetch/workspace/" ++ parseRepoName url ++ "/" ++
            parseRepoName url)
          url
          (env.config1.get_checksum url).isSome) := by
    rw [clone_repo]
    rw [show (!env.bubblewrapOk) = false from by simp [hbw]]
    simp only [Bool.false_eq_true, if_false]
    rw [hurl]
    simp only [hpre, Bool.false_eq_true, if_false]
    constructor
    · intro h
      rcases List.mem_append.mp h with h1 | h2
      · rcases List.mem_append.mp h1 with h3 | h4
        · rcases List.mem_append.mp h3 with h5 | h6
          · simp at h5
          · split at h6 <;> simp at h6
        · simp at h4
      · exact h2
    · intro h
      exact List.mem_append.mpr (Or.inr h)
  rw [hmem, fetchPrompt_promptPhase_iff]
  refine ⟨?_, ?_, ?_⟩
  · intro htm
    subst htm
    rw [show (("paranoid" : String) == "paranoid") = true from by decide]
    simp
  · intro htm
    subst htm
    rw [show (("normal" : String) == "paranoid") = false from by decide,
      show (("normal" : String) == "yolo") = false from by decide]
    simp
  · intro htm
    subst htm
    rw [show (("yolo" : String) == "paranoid") = false from by decide,
      show (("yolo" : String) == "yolo") = true from by decide]
    simp

/-- C4 (amended): with `--verify-checksum` set and no fingerprint stored
for the resolved URL, the pipeline aborts (exit code 1) before any
sandboxed git invocation and before any prompt, and the abort performs no
cleanup; however the workspace directory has already been created at the
time of the check — the trace ends with exactly
create-workspace, load-config, exit — so the abort leaves the freshly
created workspace directory behind. -/
theorem c4_verify_precondition_aborts_after_workspace_creation
    (env : CloneEnv) (repo url tm : String)
    (hbw : env.bubblewrapOk = true)
    (hurl : resolveUrl repo = some url)
    (hno : (env.config1.get_checksum url).isSome = false) :
    (∀ (w : String) (a : List String) (n : Bool),
      Event.gitCall w a n ∉ clone_repo env repo true tm) ∧
    (∀ (m : String) (a : Bool), Event.prompt m a ∉ clone_repo env repo true tm) ∧
    (∃ pre, clone_repo env repo true tm =
      pre ++ [Event.createDir (env.homeDir ++ "/.gitfetch/workspace/" ++ parseRepoName url),
              Event.loadConfig, Event.exitCode 1]) := by
  have htrace : clone_repo env repo true tm =
      ([Event.checkBubblewrap true,
        Event.createDir (env.homeDir ++ "/.gitfetch/workspace")] ++
       (if env.workspaceExists then
         [Event.removeDir (env.homeDir ++ "/.gitfetch/workspace/" ++ parseRepoName url)]
        else [])) ++
      [Event.createDir (env.homeDir ++ "/.gitfetch/workspace/" ++ parseRepoName url),
       Event.loadConfig, Event.exitCode 1] := by
    rw [clone_repo]
    rw [show (!env.bubblewrapOk) = false from by simp [hbw]]
    simp only [Bool.false_eq_true, if_false]
    rw [hurl]
    simp only [hno, Bool.not_false, Bool.and_true, if_true]
    simp
  refine ⟨?_, ?_, ?_⟩
  · intro w a n
    rw [htrace]
    intro h
    rcases List.mem_append.mp h with h1 | h2
    · rcases List.mem_append.mp h1 with h3 | h4
      · simp at h3
      · split at h4 <;> simp at h4
    · simp at h2
  · intro m a
    rw [htrace]
    intro h
    rcases List.mem_append.mp h with h1 | h2
    · rcases List.mem_append.mp h1 with h3 | h4
      · simp at h3
      · split at h4 <;> simp at h4
    · simp at h2
  · exact ⟨_, htrace⟩

/-! ## Concrete runs -/

/-- A concrete environment: sandbox available, empty registry, every
external step succeeding and every prompt answered yes. -/
def demoEnv : CloneEnv :=
  { bubblewrapOk := true
    homeDir := "/h"
    workspaceExists := false
    config1 := { installed_repos := [], checksum_registry := [] }
    config2 := { installed_repos := [], checksum_registry := [] }
    answerFetch := true
    answerVerifyFail := true
    answerScan := true
    answerCopy := true
    cloneOk := true
    checkoutOk := true
    commitHash := none
    verifyOutcome := Except.ok true
    scanWarnings := []
    copyOk := true }

/-- Witness for C3: the checkout invocation of a concrete successful run,
classified by `c3_checkout_never_networked`. -/
theorem c3_witness :
    (Event.gitCall "/h/.gitfetch/workspace/r/r" ["checkout", "--force", "HEAD"] false ∈
      clone_repo demoEnv "o/r" false "normal") ∧
    ((∃ url, resolveUrl "o/r" = some url ∧
        ["checkout", "--force", "HEAD"] = ["clone", "--no-checkout", url] ∧ false = true) ∨
     (["checkout", "--force", "HEAD"] = ["checkout", "--force", "HEAD"] ∧
        false = false)) :=
  ⟨by decide,
   c3_checkout_never_networked demoEnv "o/r" false "normal"
     "/h/.gitfetch/workspace/r/r" ["checkout", "--force", "HEAD"] false (by decide)⟩

/-- Witness for C5 at a concrete yolo run. -/
theorem c5_witness :
    Event.prompt "m" true ∉ clone_repo demoEnv "o/r" false "yolo" :=
  c5_yolo_never_prompts demoEnv "o/r" false "yolo" rfl "m" true

/-- Witness for C6 at a concrete normal-mode run with an empty registry. -/
theorem c6_witness :
    (("normal" : String) = "paranoid" →
      Event.prompt msgFetch demoEnv.answerFetch ∈ clone_repo demoEnv "o/r" false "normal") ∧
    (("normal" : String) = "normal" →
      ((Event.prompt msgFetch demoEnv.answerFetch ∈ clone_repo demoEnv "o/r" false "normal") ↔
        (demoEnv.config1.get_checksum "https://github.com/o/r").isSome = false)) ∧
    (("normal" : String) = "yolo" →
      Event.prompt msgFetch demoEnv.answerFetch ∉ clone_repo demoEnv "o/r" false "normal") :=
  c6_before_fetch_prompt_matrix demoEnv "o/r" "https://github.com/o/r" false "normal"
    rfl (by decide) rfl

/-- C4 counterexample: a concrete run with `--verify-checksum` and an empty
registry.  The trace shows the workspace directory being created and, three
events later, the abort with exit code 1 and no further event — so at the
time of the fingerprint check the workspace directory already exists,
refuting the claim's "no workspace directory exists at the time of the
check / nothing was created yet". -/
theorem c4_counterexample :
    clone_repo demoEnv "o/r" true "normal" =
      [Event.checkBubblewrap true, Event.createDir "/h/.gitfetch/workspace",
       Event.createDir "/h/.gitfetch/workspace/r", Event.loadConfig, Event.exitCode 1] ∧
    Event.createDir "/h/.gitfetch/workspace/r" ∈ clone_repo demoEnv "o/r" true "normal" ∧
    Event.exitCode 1 ∈ clone_repo demoEnv "o/r" true "normal" := by
  decide

/-- Witness for the amended C4 at the same concrete run. -/
theorem c4_witness :
    (∀ (w : String) (a : List String) (n : Bool),
      Event.gitCall w a n ∉ clone_repo demoEnv "o/r" true "normal") ∧
    (∀ (m : String) (a : Bool), Event.prompt m a ∉ clone_repo demoEnv "o/r" true "normal") ∧
    (∃ pre, clone_repo demoEnv "o/r" true "normal" =
      pre ++ [Event.createDir
                (demoEnv.homeDir ++ "/.gitfetch/workspace/" ++
                  parseRepoName "https://github.com/o/r"),
              Event.loadConfig, Event.exitCode 1]) :=
  c4_verify_precondition_aborts_after_workspace_creation demoEnv "o/r"
    "https://github.com/o/r" "normal" rfl (by decide) rfl

end Gitfetch
